import Mathlib

/-!
Verification of the DateMeDirectory profile acquisition pipeline.

Strings are modelled through their character lists (`String.data`); Python
string operations are embedded as list functions.  The embedding covers the
ASCII fragment of the Python semantics: `str.lower`, `str.strip`, the regex
word class and `urllib.parse` are Unicode-aware in CPython, and are modelled
here for ASCII text, which is the domain of every comparison the scripts
perform.  Network and file effects are passed in as explicit oracle
functions; fallible library calls are embedded with `Option` / `Except`.
-/

set_option maxRecDepth 4000

deriving instance DecidableEq for Except

namespace DateMe

/-! ## Python string primitives -/

/-- Python `str.strip()` whitespace test, ASCII fragment: space, tab,
line feed, carriage return, vertical tab, form feed. -/
def isPySpace (c : Char) : Bool :=
  c = ' ' || c = '\t' || c = '\n' || c = '\r' || c.toNat = 11 || c.toNat = 12

/-- Drop the longest suffix whose characters satisfy `p`. -/
def dropRightWhile (p : Char → Bool) (l : List Char) : List Char :=
  (l.reverse.dropWhile p).reverse

/-- Python `str.strip()` on character lists. -/
def pyStripL (l : List Char) : List Char :=
  dropRightWhile isPySpace (l.dropWhile isPySpace)

/-- Python `str.strip()`. -/
def pyStrip (s : String) : String :=
  String.mk (pyStripL s.data)

/-- Python `str.lower()`, ASCII fragment: map capital letters (code
points 65-90) to the corresponding small letters. -/
def pyLower (c : Char) : Char :=
  if 65 ≤ c.toNat ∧ c.toNat ≤ 90 then Char.ofNat (c.toNat + 32) else c

/-- Python `str.lower()` on whole strings (ASCII fragment). -/
def pyLowerStr (s : String) : String :=
  String.mk (s.data.map pyLower)

/-- Python regex `\w` word character, ASCII fragment: alphanumeric or
underscore. -/
def isWordChar (c : Char) : Bool :=
  c.isAlphanum || c = '_'

/-- Count the maximal runs of word characters in a character list; the flag
records whether the scan is currently inside a run.  This is the length of
the Python `re.findall` match list for a word-boundary-delimited run of
word characters, since each match is exactly one maximal run. -/
def countWordRuns : List Char → Bool → Nat
  | [], _ => 0
  | c :: cs, inRun =>
    if isWordChar c then (if inRun then 0 else 1) + countWordRuns cs true
    else countWordRuns cs false

/-- `word_count` from `scripts/scrapingscripts/merge_fulltext_by_id.py`:
zero for falsy text, otherwise the number of regex word-character runs. -/
def word_count (text : String) : Nat :=
  if text = "" then 0 else countWordRuns text.data false

/-- `word_count` from `src/rets/rescrape_short_profiles_js.py`: the same
regex count, defined independently in that file. -/
def word_count_js (text : String) : Nat :=
  if text = "" then 0 else countWordRuns text.data false

/-- Helper for Python `str.split()` with no arguments: accumulate the
current word (reversed) and cut at whitespace, discarding empty pieces. -/
def pySplitAux : List Char → List Char → List (List Char)
  | [], acc => if acc = [] then [] else [acc.reverse]
  | c :: cs, acc =>
    if isPySpace c then
      if acc = [] then pySplitAux cs [] else acc.reverse :: pySplitAux cs []
    else pySplitAux cs (c :: acc)

/-- Python `str.split()` with no arguments: maximal non-whitespace runs. -/
def pySplit (s : String) : List String :=
  (pySplitAux s.data []).map String.mk

/-- Python substring test `needle in hay`. -/
def pyIn (needle hay : String) : Bool :=
  decide (needle.data <:+: hay.data)

/-! ## Data model

One record type covers every script.  Python records are loosely typed
dicts; a missing key is `none`.  The single field whose code distinguishes
key presence from a stored `None` is `scrapeTimestampDetail` (the directory
scraper stores an explicit `None`, and the merge scripts test `"key" in u`),
so its type is an option of an option: the outer layer is key presence. -/

structure ProfileDetails where
  fullText : Option String := none
  deriving DecidableEq, Repr

structure Profile where
  id : Option String := none
  name : Option String := none
  age : Option Int := none
  gender : Option String := none
  interestedIn : Option (List String) := none
  location : Option String := none
  locationFlexibility : Option String := none
  profileUrl : Option String := none
  expandedUrl : Option String := none
  docPlatform : Option String := none
  lastUpdated : Option String := none
  profileDetails : Option ProfileDetails := none
  scrapeTimestampDetail : Option (Option String) := none
  docAccessible : Option Bool := none
  reviewStatus : Option String := none
  reviewReason : Option String := none
  reviewTimestamp : Option String := none
  deriving DecidableEq, Repr

/-- `p.get("profileDetails") or {}`: the details object, defaulting to an
empty one when the key is absent, `None`, or an empty dict. -/
def detailsOf (p : Profile) : ProfileDetails :=
  p.profileDetails.getD {}

/-- `get_fulltext` from `scripts/scrapingscripts/merge_fulltext_by_id.py`:
`(d.get("fullText") or "").strip()`. -/
def get_fulltext (p : Profile) : String :=
  pyStrip ((detailsOf p).fullText.getD "")

/-- `set_fulltext` from `scripts/scrapingscripts/merge_fulltext_by_id.py`:
store `text` under `profileDetails.fullText`. -/
def set_fulltext (p : Profile) (text : String) : Profile :=
  { p with profileDetails := some { detailsOf p with fullText := some text } }

/-! ## The id-keyed merge gate
`scripts/scrapingscripts/merge_fulltext_by_id.py`, `main`, lines 42-67:
the body of the update loop for an update record `u` matched by id to a
base record `b`. -/

/-- One merge step of `merge_fulltext_by_id.py`: overwrite
`profileDetails.fullText` of `b` with the stripped update text iff the word
count rises by at least `minGain` and is positive; on acceptance also
propagate `scrapeTimestampDetail` (when the key is present) and truthy
`expandedUrl` / `docPlatform` values. -/
def mergeUpdate (minGain : Int) (b u : Profile) : Profile :=
  let old := get_fulltext b
  let cand := get_fulltext u
  if (word_count old : Int) + minGain ≤ (word_count cand : Int) ∧ 0 < word_count cand then
    let b1 := set_fulltext b cand
    let b2 := match u.scrapeTimestampDetail with
      | some v => { b1 with scrapeTimestampDetail := some v }
      | none => b1
    let b3 := match u.expandedUrl with
      | some v => if v ≠ "" then { b2 with expandedUrl := some v } else b2
      | none => b2
    match u.docPlatform with
      | some v => if v ≠ "" then { b3 with docPlatform := some v } else b3
      | none => b3
  else b

/-! ## JS-longform merge
`src/rets/merge_js_longform.py`, `merge_js_longform`. -/

/-- Truthy dictionary key `p.get("id")`: the id when present and
non-empty. -/
def truthyId (p : Profile) : Option String :=
  match p.id with
  | some s => if s = "" then none else some s
  | none => none

/-- The dict comprehension keyed by id: later entries overwrite earlier
ones, so lookup returns the last profile with the given truthy id. -/
def byId (ps : List Profile) (k : String) : Option Profile :=
  (ps.filter (fun p => truthyId p = some k)).getLast?

/-- Per-profile body of the merge loop in `merge_js_longform`: when a JS
profile with the same id carries a truthy `fullText`, overwrite the main
record's `profileDetails.fullText` with it unconditionally and propagate
`scrapeTimestampDetail` when that key is present. -/
def jsLongformStep (lookup : String → Option Profile) (p : Profile) : Profile :=
  match truthyId p with
  | none => p
  | some pid =>
    match lookup pid with
    | none => p
    | some jsP =>
      match (detailsOf jsP).fullText with
      | none => p
      | some t =>
        if t = "" then p
        else
          let p1 := { p with profileDetails := some { detailsOf p with fullText := some t } }
          match jsP.scrapeTimestampDetail with
          | some v => { p1 with scrapeTimestampDetail := some v }
          | none => p1

/-- `merge_js_longform`: map the merge step over the main list. -/
def merge_js_longform (mainPs jsPs : List Profile) : List Profile :=
  mainPs.map (jsLongformStep (byId jsPs))

/-! ## Longform extraction pass
`src/rets/extract_longform_profiles.py`, `process_profiles` loop body. -/

/-- Per-profile body of `process_profiles`: skip rows without a truthy
URL; a fetch/parse exception leaves the record untouched; on success the
fetched text overwrites `profileDetails.fullText` unconditionally and the
scrape timestamp is refreshed.  `fetch` is the oracle for
`fetch_profile_text`. -/
def longformStep (fetch : String → Except String String) (now : String) (p : Profile) : Profile :=
  match p.profileUrl with
  | none => p
  | some url =>
    if url = "" then p
    else
      match fetch url with
      | .error _ => p
      | .ok fullText =>
        { p with profileDetails := some { detailsOf p with fullText := some fullText },
                 scrapeTimestampDetail := some (some now) }

/-! ## JS rescrape pass
`src/rets/rescrape_short_profiles_js.py`, `rescrape_short_profiles_js`
loop body. -/

/-- Per-profile body of the Playwright rescrape loop: `newText` is the
value returned by `fetch_page_text` (empty on failure); overwrite only
when the new regex word count strictly exceeds the old one and is at least
ten. -/
def jsRescrapeStep (newText : String) (p : Profile) : Profile :=
  match p.profileUrl with
  | none => p
  | some url =>
    if url = "" then p
    else
      let oldText := pyStrip ((detailsOf p).fullText.getD "")
      if word_count_js oldText < word_count_js newText ∧ 10 ≤ word_count_js newText then
        { p with profileDetails := some { detailsOf p with fullText := some newText } }
      else p

/-! ## urllib.parse embedding

CPython `urlsplit` / `urlunsplit` / `urlparse`, modelled for ASCII input:
leading control-or-space strip, removal of unsafe bytes, scheme parse,
authority split with the invalid-bracket ValueError, fragment and query
splits, and the params split of `urlparse`.  The NFKC netloc check (a
no-op for ASCII netlocs) is not modelled. -/

def isUnsafeUrlChar (c : Char) : Bool :=
  c = '\t' || c = '\r' || c = '\n'

def isC0OrSpace (c : Char) : Bool :=
  c.toNat ≤ 32

/-- CPython `scheme_chars`: letters, digits and `+-.`. -/
def isSchemeChar (c : Char) : Bool :=
  c.isAlpha || c.isDigit || c = '+' || c = '-' || c = '.'

/-- Characters ending the authority component. -/
def isNetlocDelim (c : Char) : Bool :=
  c = '/' || c = '?' || c = '#'

def headIsAlpha : List Char → Bool
  | c :: _ => c.isAlpha
  | [] => false

/-- `str.split(sep, 1)`: the part before the first occurrence of `sep`
and the part after it (empty when `sep` is absent). -/
def splitOnFirst (sep : Char) (l : List Char) : List Char × List Char :=
  (l.takeWhile (fun c => c ≠ sep), (l.dropWhile (fun c => c ≠ sep)).drop 1)

structure USplit where
  scheme : List Char
  netloc : List Char
  path : List Char
  query : List Char
  fragment : List Char
  deriving DecidableEq, Repr

/-- The scheme-parse guard of `urlsplit`: a colon at a positive index,
an ASCII-alpha first character and scheme characters throughout. -/
def schemeParseOk (url : List Char) : Prop :=
  ':' ∈ url ∧ url.takeWhile (fun c => c ≠ ':') ≠ [] ∧
    headIsAlpha (url.takeWhile (fun c => c ≠ ':')) = true ∧
    (url.takeWhile (fun c => c ≠ ':')).all isSchemeChar = true

instance (url : List Char) : Decidable (schemeParseOk url) := by
  unfold schemeParseOk
  infer_instance

/-- CPython `urllib.parse.urlsplit` on character lists. -/
def pyUrlsplitL (url0 : List Char) : Except String USplit :=
  let url1 := url0.dropWhile isC0OrSpace
  let url := url1.filter (fun c => !isUnsafeUrlChar c)
  let pre := url.takeWhile (fun c => c ≠ ':')
  let scheme := if schemeParseOk url then pre.map pyLower else []
  let rest := if schemeParseOk url then (url.dropWhile (fun c => c ≠ ':')).drop 1 else url
  if rest.take 2 = ['/', '/'] then
    let after := rest.drop 2
    let netloc := after.takeWhile (fun c => !isNetlocDelim c)
    let rest2 := after.dropWhile (fun c => !isNetlocDelim c)
    if ('[' ∈ netloc ∧ ']' ∉ netloc) ∨ (']' ∈ netloc ∧ '[' ∉ netloc) then
      .error "Invalid IPv6 URL"
    else
      let fq := splitOnFirst '#' rest2
      let pq := splitOnFirst '?' fq.1
      .ok ⟨scheme, netloc, pq.1, pq.2, fq.2⟩
  else
    let fq := splitOnFirst '#' rest
    let pq := splitOnFirst '?' fq.1
    .ok ⟨scheme, [], pq.1, pq.2, fq.2⟩

/-- CPython `urllib.parse.urlunsplit` on character lists. -/
def pyUrlunsplitL (scheme netloc path query fragment : List Char) : List Char :=
  let url :=
    if netloc ≠ [] ∨ path.take 2 = ['/', '/'] then
      let url1 := if path ≠ [] ∧ path.take 1 ≠ ['/'] then '/' :: path else path
      '/' :: '/' :: (netloc ++ url1)
    else path
  let url2 := if scheme ≠ [] then scheme ++ ':' :: url else url
  let url3 := if query ≠ [] then url2 ++ '?' :: query else url2
  if fragment ≠ [] then url3 ++ '#' :: fragment else url3

/-- CPython `uses_params`. -/
def pyUsesParams : List String :=
  ["", "ftp", "hdl", "prospero", "http", "imap", "https", "shttp", "rtsp",
   "rtspu", "sip", "sips", "mms", "sftp", "tel"]

def afterLastSlash (l : List Char) : List Char :=
  (l.reverse.takeWhile (fun c => c ≠ '/')).reverse

def beforeLastSlashIncl (l : List Char) : List Char :=
  (l.reverse.dropWhile (fun c => c ≠ '/')).reverse

/-- CPython `_splitparams` path part, called only when `;` occurs in the
path: drop the params of the last segment. -/
def splitParamsL (l : List Char) : List Char :=
  if '/' ∈ l then
    let tailSeg := afterLastSlash l
    if ';' ∈ tailSeg then beforeLastSlashIncl l ++ tailSeg.takeWhile (fun c => c ≠ ';')
    else l
  else l.takeWhile (fun c => c ≠ ';')

/-- CPython `urllib.parse.urlparse` on character lists; the params are
dropped from the path for schemes in `uses_params` (the params value
itself is not used by any caller modelled here). -/
def pyUrlparseL (url : List Char) : Except String USplit :=
  match pyUrlsplitL url with
  | .error e => .error e
  | .ok r =>
    if String.mk r.scheme ∈ pyUsesParams ∧ ';' ∈ r.path then
      .ok ⟨r.scheme, r.netloc, splitParamsL r.path, r.query, r.fragment⟩
    else .ok r

/-! ## Platform classifier
`src/rets/tag_short_profiles_platform.py`, `classify_platform` (an
identical copy lives in `src/rets/rescrape_short_profiles.py`). -/

/-- The host/path rule chain of `classify_platform`, applied to the
lower-cased netloc and path. -/
def classifyTag (netloc path : String) : String :=
  if pyIn "bit.ly" netloc || pyIn "tinyurl.com" netloc then "shortener"
  else if pyIn "docs.google.com" netloc then
    if pyIn "/document/" path then "google_docs"
    else if pyIn "/presentation/" path then "google_slides"
    else "google_docs_other"
  else if pyIn "drive.google.com" netloc then "google_drive_file"
  else if pyIn "notion.so" netloc || pyIn "notion.site" netloc then "notion"
  else if pyIn "dropbox.com" netloc || pyIn "paper.dropbox.com" netloc then
    if pyIn "paper.dropbox.com" netloc || pyIn "/paper/" path then "dropbox_paper"
    else "dropbox_file"
  else if pyIn "proton.me" netloc then "proton_drive"
  else if pyIn "yandex.com" netloc || pyIn "yandex.ru" netloc then "yandex_disk"
  else if pyIn "coda.io" netloc then "coda"
  else if pyIn "cuties.app" netloc then "cuties_app"
  else if pyIn "datefirefly.com" netloc then "datefirefly"
  else if pyIn "carrd.co" netloc then "carrd"
  else if pyIn "twitter.com" netloc || pyIn "x.com" netloc then "twitter"
  else if pyIn "youtube.com" netloc || pyIn "youtu.be" netloc then "youtube"
  else "custom_site"

/-- `classify_platform(url)`: a falsy url (absent, `None` or empty) gives
`"unknown"`; otherwise the rule chain runs on the lower-cased authority
and path of `urlparse(url)` (called twice in the source on the same pure
argument, bound once here); a urlparse ValueError propagates. -/
def classify_platform (url : Option String) : Except String String :=
  match url with
  | none => .ok "unknown"
  | some u =>
    if u = "" then .ok "unknown"
    else
      match pyUrlparseL u.data with
      | .error e => .error e
      | .ok r =>
        .ok (classifyTag (pyLowerStr (String.mk r.netloc)) (pyLowerStr (String.mk r.path)))

/-- The tags `classify_platform` can return. -/
def knownPlatformTags : List String :=
  ["unknown", "shortener", "google_docs", "google_slides", "google_docs_other",
   "google_drive_file", "notion", "dropbox_paper", "dropbox_file", "proton_drive",
   "yandex_disk", "coda", "cuties_app", "datefirefly", "carrd", "twitter",
   "youtube", "custom_site"]

/-! ## Plain rescrape pass
`src/rets/rescrape_short_profiles.py`. -/

/-- `expand_url`: follow redirects to the terminal URL; `net` returns the
terminal URL of the redirected GET, or `none` when the request raises, in
which case the input URL is returned unchanged. -/
def expand_url (net : String → Option String) (url : String) : String :=
  match net url with
  | some finalUrl => finalUrl
  | none => url

/-- The regex search of `extract_google_doc_text`: the first position
where the literal segment `/document/d/` is followed by a non-empty run
of non-slash characters and then another slash; returns the run. -/
def docIdSearch : List Char → Option (List Char)
  | [] => none
  | c :: cs =>
    if "/document/d/".data <+: (c :: cs) then
      let after := (c :: cs).drop 12
      let run := after.takeWhile (fun d => d ≠ '/')
      if run ≠ [] ∧ after.drop run.length ≠ [] then some run
      else docIdSearch cs
    else docIdSearch cs

/-- `extract_google_doc_text`: no doc id in the URL gives `None`; the
export GET (oracle `get`, returning status code and body, or `none` when
`requests.get` raises, which propagates) gives `None` on a non-200 status
or an all-whitespace body, and the stripped body otherwise. -/
def extract_google_doc_text (get : String → Option (Nat × String)) (docUrl : String) :
    Except String (Option String) :=
  match docIdSearch docUrl.data with
  | none => .ok none
  | some docId =>
    match get ("https://docs.google.com/document/d/" ++ String.mk docId ++ "/export?format=txt") with
    | none => .error "requests exception"
    | some (status, body) =>
      if status = 200 then
        let text := pyStrip body
        .ok (if text = "" then none else some text)
      else .ok none

/-- An ASCII apostrophe, kept out of string literals. -/
def apos : String :=
  String.mk ['\'']

/-- The literal skip phrases of `rescrape_profile` (the third one is the
mojibake literal of the source; the fourth contains an apostrophe). -/
def intentionalPhrases : List String :=
  ["not currently looking", "no longer seeking", "iâ€™ve met someone",
   "i" ++ apos ++ "m seeing someone"]

def hasIntentionalPhrase (oldText : String) : Bool :=
  intentionalPhrases.any (fun ph => pyIn (pyLowerStr ph) (pyLowerStr oldText))

/-- The final gate of `rescrape_profile`: overwrite only when the new text
is truthy, strips to a truthy value and has strictly more
whitespace-separated pieces than the old text. -/
def finishRescrape (p : Profile) (oldText : String) (newText : Option String)
    (reason : String) : Profile × String :=
  match newText with
  | some nt =>
    if nt ≠ "" ∧ pyStrip nt ≠ "" ∧ (pySplit oldText).length < (pySplit nt).length then
      ({ p with profileDetails := some { detailsOf p with fullText := some nt } }, reason)
    else (p, reason)
  | none => (p, reason)

/-- `rescrape_profile`: skip profiles whose text contains an intentional
phrase; expand shortener URLs (recording `expandedUrl` and re-running the
classifier on the terminal URL); extract Google-Docs export text when the
resulting platform is `google_docs`; then apply the overwrite gate.
`expandGet` is the redirect oracle of `expand_url`; `exportGet` the export
GET oracle.  A classify ValueError or an export-request exception
propagates as an error.  (The extractor receives a string; a `None` URL
cannot reach it because its platform classifies as `"unknown"`.) -/
def rescrape_profile (expandGet : String → Option String)
    (exportGet : String → Option (Nat × String)) (p : Profile) :
    Except String (Profile × String) :=
  let url := p.profileUrl
  let oldText := pyStrip ((detailsOf p).fullText.getD "")
  if hasIntentionalPhrase oldText then .ok (p, "short_but_intentional")
  else
    match classify_platform url with
    | .error e => .error e
    | .ok platform0 =>
      let isShort := platform0 = "shortener"
      let finalUrl := if isShort then some (expand_url expandGet (url.getD "")) else url
      let p1 := if isShort then { p with expandedUrl := finalUrl } else p
      match (if isShort then classify_platform finalUrl else .ok platform0) with
      | .error e => .error e
      | .ok platform =>
        if platform = "google_docs" then
          match extract_google_doc_text exportGet (finalUrl.getD "") with
          | .error e => .error e
          | .ok maybeText =>
            match maybeText with
            | some t => .ok (finishRescrape p1 oldText (some t) "google_docs_export")
            | none => .ok (finishRescrape p1 oldText none "no_change")
        else .ok (finishRescrape p1 oldText none "no_change")

/-! ## Detail fetch pass
`src/rets/scrape_profiles.py`, `main` loop body. -/

/-- The per-row effect outcomes of one iteration of the fetch loop:
the GET result (`none` for a RequestException), whether the raw HTML
write succeeded, and the outcome of `extract_full_text` on the body. -/
structure FetchOutcome where
  fetch : Option (Nat × String)
  writeOk : Bool
  extractRes : String → Except String String

/-- One iteration of the fetch loop of `scrape_profiles.main`: ensure
`profileDetails`, reset `docAccessible` to false and the scrape timestamp
to `None`, then run url check, GET, status check, raw write and text
extraction, each failure producing a skip reason; on success attach a
non-empty extracted text, stamp the timestamp and set `docAccessible`. -/
def processRow (o : FetchOutcome) (now : String) (row : Profile) : Profile × Option String :=
  let p0 := if row.profileDetails = none then { row with profileDetails := some {} } else row
  let p1 := { p0 with docAccessible := some false, scrapeTimestampDetail := some none }
  match p1.profileUrl with
  | none => (p1, some "missing_profileUrl")
  | some url =>
    if url = "" then (p1, some "missing_profileUrl")
    else
      match o.fetch with
      | none => (p1, some "request_exception")
      | some (status, body) =>
        if 400 ≤ status then (p1, some "http_status")
        else if o.writeOk = false then (p1, some "raw_write_error")
        else
          match o.extractRes body with
          | .error _ => (p1, some "parse_error")
          | .ok fullText =>
            let p2 :=
              if fullText ≠ "" then
                { p1 with profileDetails := some { detailsOf p1 with fullText := some fullText } }
              else p1
            ({ p2 with scrapeTimestampDetail := some (some now), docAccessible := some true },
              none)

/-- Specification predicate for the fetch pass: the row has a truthy URL
and this pass's GET, status check, raw write and extraction all
succeed. -/
def rowFetchSucceeds (o : FetchOutcome) (row : Profile) : Bool :=
  match row.profileUrl with
  | none => false
  | some url =>
    if url = "" then false
    else
      match o.fetch with
      | none => false
      | some (status, body) =>
        if 400 ≤ status then false
        else if o.writeOk = false then false
        else
          match o.extractRes body with
          | .error _ => false
          | .ok _ => true

/-! ## URL canonicalization
`src/rets/merge_style_into_master.py`, `canonical_url`. -/

def rstripSlashL (l : List Char) : List Char :=
  dropRightWhile (fun c => c = '/') l

/-- `canonical_url`: strip the input, return the empty string for a falsy
input, otherwise lower-case the scheme (defaulting to https) and the
authority, strip trailing slashes off the path, and discard query and
fragment; a urlsplit ValueError propagates. -/
def canonical_url (u : String) : Except String String :=
  let u2 := pyStrip u
  if u2 = "" then .ok ""
  else
    match pyUrlsplitL u2.data with
    | .error e => .error e
    | .ok r =>
      let scheme := if r.scheme.map pyLower = [] then "https".data else r.scheme.map pyLower
      let netloc := r.netloc.map pyLower
      let path := rstripSlashL r.path
      .ok (String.mk (pyUrlunsplitL scheme netloc path [] []))

/-! ## Bucket triage
`scripts/scrapingscripts/move_profile_to_bucket.py`, `main`. -/

/-- The source-scan loop: the first record whose id equals `pid` is the
match, every other record (including later matches) stays in order. -/
def extractById (pid : String) : List Profile → Option Profile × List Profile
  | [] => (none, [])
  | p :: ps =>
    if p.id = some pid then (some p, ps)
    else
      let r := extractById pid ps
      (r.1, p :: r.2)

/-- The triage stamp on a copy of the matched record. -/
def stampClosed (m : Profile) (reason now : String) : Profile :=
  { m with reviewStatus := some "closed", reviewReason := some reason,
           reviewTimestamp := some now }

/-- `main` of `move_profile_to_bucket.py` as a pure transformation: strip
the id argument, extract the first match from the source (`none` - the
fatal exit - when absent), and append a stamped copy carrying the stripped
reason and the current timestamp to the bucket unless the bucket already
holds that id. -/
def moveProfileToBucket (idArg reason now : String) (source bucket : List Profile) :
    Option (List Profile × List Profile) :=
  let pid := pyStrip idArg
  match extractById pid source with
  | (none, _) => none
  | (some m, remaining) =>
    if bucket.any (fun p => p.id = some pid) then some (remaining, bucket)
    else some (remaining, bucket ++ [stampClosed m (pyStrip reason) now])

/-! ## Identity assignment
`src/rets/scrape_directory.py`, `make_profile_id` and `assign_ids`. -/

/-- Python `str(profile.get("age") or "")`: `None` and the falsy integer
zero give the empty string. -/
def pyStrOfAge : Option Int → String
  | some n => if n = 0 then "" else toString n
  | none => ""

/-- `make_profile_id`: `usr_` followed by the first ten characters of the
SHA1 hexdigest of the joined key fields.  `sha1hex` is hashlib's digest,
passed as an uninterpreted pure function. -/
def make_profile_id (sha1hex : String → String) (p : Profile) : String :=
  let keyParts := [p.profileUrl.getD "", p.name.getD "", pyStrOfAge p.age,
    p.gender.getD "", String.intercalate " " (p.interestedIn.getD []), p.location.getD ""]
  "usr_" ++ String.mk ((sha1hex (String.intercalate "|" keyParts)).data.take 10)

/-- Python `f"{n:x}"` for a natural number. -/
def pyHex (n : Nat) : String :=
  String.mk (Nat.toDigits 16 n)

/-- The collision loop of `assign_ids`: while the candidate id is already
seen, replace its trailing characters with the hex counter.  `fuel` bounds
the iteration count; the caller passes a bound under which the loop in the
source always exits, so exhaustion (returning the current pid) is
unreachable. -/
def resolveCollision (seen : List String) (basePid : String) :
    String → Nat → Nat → String
  | pid, _, 0 => pid
  | pid, counter, fuel + 1 =>
    if pid ∈ seen then
      let suffix := pyHex counter
      resolveCollision seen basePid
        (String.mk (basePid.data.take (basePid.data.length - suffix.data.length)) ++ suffix)
        (counter + 1) fuel
    else pid

/-- The fold of `assign_ids` over the row list, threading the per-batch
seen set. -/
def assignIdsGo (sha1hex : String → String) : List Profile → List String → List Profile
  | [], _ => []
  | p :: ps, seen =>
    let pid0 := make_profile_id sha1hex p
    let pid := resolveCollision seen pid0 pid0 1 ((seen.length + 2) * 256 + 16)
    { p with id := some pid } :: assignIdsGo sha1hex ps (pid :: seen)

/-- `assign_ids`: set the `id` field of every row, starting from an empty
seen set. -/
def assign_ids (sha1hex : String → String) (ps : List Profile) : List Profile :=
  assignIdsGo sha1hex ps []

/-! ## Concrete example records used by witnesses and counterexamples -/

def mergeBaseEx : Profile :=
  { profileDetails := some { fullText := some "one two" } }

def mergeUpdEx : Profile :=
  { profileDetails := some { fullText := some "one two three" } }

def jsMergeMainEx : Profile :=
  { id := some "usr_0000000001", profileDetails := some { fullText := some "alpha beta gamma" } }

def jsMergeJsEx : Profile :=
  { id := some "usr_0000000001", profileDetails := some { fullText := some "x" } }

def jsRescrapeEx : Profile :=
  { profileUrl := some "https://x.example/p", profileDetails := some { fullText := some "short" } }

def rowEx1 : Profile :=
  { name := some "Alice", profileUrl := some "https://a.example/p",
    lastUpdated := some "2024-01-01" }

def rowEx2 : Profile :=
  { name := some "Alice", profileUrl := some "https://a.example/p",
    lastUpdated := some "2024-06-30" }

def fetchFailEx : FetchOutcome :=
  { fetch := none, writeOk := true, extractRes := fun _ => .ok "" }

def accessibleRowEx : Profile :=
  { profileUrl := some "https://a.example/doc", docAccessible := some true,
    profileDetails := some { fullText := some "previously harvested text" } }

def shortProfileEx : Profile :=
  { id := some "usr_0000000002", profileUrl := some "https://bit.ly/abc",
    docPlatform := some "shortener" }

def expandNetEx : String → Option String :=
  fun u => if u = "https://bit.ly/abc" then some "https://notion.so/xyz" else none

def triageRowEx : Profile :=
  { id := some "usr_0000000003", name := some "Pat" }

/-! ## Theorems -/

/-- C1: Merge gate acceptance.  For every stored record, candidate record
and integer `min_gain`, the merge overwrites the stored `fullText` with the
candidate text exactly when `wordcount(candidate) >= wordcount(old) +
min_gain` and `wordcount(candidate) > 0`; whenever
`wordcount(candidate) < wordcount(old) + min_gain`, or the candidate has
word count zero, the record after the merge equals the old record
exactly. -/
theorem merge_gate_spec (b u : Profile) (g : Int) :
    (((word_count (get_fulltext b) : Int) + g ≤ (word_count (get_fulltext u) : Int) ∧
        0 < word_count (get_fulltext u)) →
      (detailsOf (mergeUpdate g b u)).fullText = some (get_fulltext u)) ∧
    (((word_count (get_fulltext u) : Int) < (word_count (get_fulltext b) : Int) + g) →
      mergeUpdate g b u = b) ∧
    (word_count (get_fulltext u) = 0 → mergeUpdate g b u = b) := by
  refine ⟨?_, ?_, ?_⟩
  · intro h
    unfold mergeUpdate
    rw [if_pos h]
    cases u.scrapeTimestampDetail <;> cases u.expandedUrl <;> cases u.docPlatform <;>
      (repeat' split) <;> simp [detailsOf, set_fulltext]
  · intro h
    unfold mergeUpdate
    rw [if_neg]
    intro hc
    omega
  · intro h
    unfold mergeUpdate
    rw [if_neg]
    intro hc
    omega

theorem merge_gate_spec_witness :
    (detailsOf (mergeUpdate 1 mergeBaseEx mergeUpdEx)).fullText = some "one two three" := by
  have h := (merge_gate_spec mergeBaseEx mergeUpdEx 1).1 (by decide)
  rw [h]
  decide

/-- C3 counterexample: the tokenizers disagree on a hyphenated word: the
regex word count of the id-keyed merge sees two words where the whitespace
split of the plain rescrape pass sees one. -/
theorem tokenizer_mismatch_counterexample :
    word_count "well-being" ≠ (pySplit "well-being").length ∧
    word_count "well-being" = 2 ∧ (pySplit "well-being").length = 1 := by
  decide

/-- C3 (amended): the id-keyed merge and the JS rescrape pass share the
same word counter (regex word-character runs), but the plain rescrape pass
compares lengths of the whitespace split, which differs on strings such as
a hyphenated word. -/
theorem tokenizer_partial_consistency :
    (∀ s : String, word_count s = word_count_js s) ∧
    word_count "well-being" ≠ (pySplit "well-being").length := by
  constructor
  · intro s
    rfl
  · decide

/-- C10: expand_url is total and non-raising: when the redirected GET
succeeds it returns the terminal URL, and when the request fails for any
reason it returns the input URL unchanged. -/
theorem expand_url_total (net : String → Option String) (url : String) :
    (∀ t, net url = some t → expand_url net url = t) ∧
    (net url = none → expand_url net url = url) := by
  constructor
  · intro t h
    simp [expand_url, h]
  · intro h
    simp [expand_url, h]

theorem expand_url_total_witness :
    expand_url expandNetEx "https://bit.ly/abc" = "https://notion.so/xyz" ∧
    expand_url (fun _ => none) "https://bit.ly/abc" = "https://bit.ly/abc" := by
  constructor
  · exact (expand_url_total expandNetEx "https://bit.ly/abc").1 "https://notion.so/xyz" rfl
  · exact (expand_url_total (fun _ => none) "https://bit.ly/abc").2 rfl

/-- C6: id assignment is deterministic: two runs over identical row lists
produce identical id sequences, and the per-profile id is a pure function
of profileUrl, name, age, gender, interestedIn and location alone (rows
differing only elsewhere, e.g. in lastUpdated, receive the same id). -/
theorem id_assignment_deterministic (sha1hex : String → String) :
    (∀ rows rows' : List Profile, rows = rows' →
      assign_ids sha1hex rows = assign_ids sha1hex rows') ∧
    (∀ p q : Profile, p.profileUrl = q.profileUrl → p.name = q.name → p.age = q.age →
      p.gender = q.gender → p.interestedIn = q.interestedIn → p.location = q.location →
      make_profile_id sha1hex p = make_profile_id sha1hex q) := by
  constructor
  · intro rows rows' h
    rw [h]
  · intro p q h1 h2 h3 h4 h5 h6
    unfold make_profile_id
    rw [h1, h2, h3, h4, h5, h6]

theorem id_assignment_deterministic_witness :
    assign_ids (fun s => s) [rowEx1] = assign_ids (fun s => s) [rowEx1] ∧
    make_profile_id (fun s => s) rowEx1 = make_profile_id (fun s => s) rowEx2 := by
  have h := id_assignment_deterministic (fun s => s)
  exact ⟨h.1 [rowEx1] [rowEx1] rfl, h.2 rowEx1 rowEx2 rfl rfl rfl rfl rfl rfl⟩

/-- C2 counterexample: the JS-longform merge replaces a three-word stored
text with a one-word candidate, so the store-wide strict-improvement
invariant fails. -/
theorem overwrite_invariant_counterexample :
    (merge_js_longform [jsMergeMainEx] [jsMergeJsEx]).map (fun p => (detailsOf p).fullText) =
      [some "x"] ∧
    word_count "x" < word_count "alpha beta gamma" := by
  decide

/-- The overwrite gate of `rescrape_profile`: when the resulting stored
text differs, the candidate was accepted and had strictly more
whitespace-split pieces than the old text. -/
theorem finishRescrape_gate (p : Profile) (oldText : String) (ntq : Option String)
    (reason : String)
    (h : (detailsOf (finishRescrape p oldText ntq reason).1).fullText ≠ (detailsOf p).fullText) :
    ∃ nt, ntq = some nt ∧
      (detailsOf (finishRescrape p oldText ntq reason).1).fullText = some nt ∧
      (pySplit oldText).length < (pySplit nt).length := by
  cases ntq with
  | none => simp [finishRescrape] at h
  | some nt =>
    by_cases hg : nt ≠ "" ∧ pyStrip nt ≠ "" ∧ (pySplit oldText).length < (pySplit nt).length
    · exact ⟨nt, rfl, by simp [finishRescrape, hg, detailsOf], hg.2.2⟩
    · exact absurd (by simp [finishRescrape, hg]) h

/-- Setting `expandedUrl` never touches `profileDetails`. -/
theorem detailsOf_expandIf (p : Profile) (c : Prop) [Decidable c] (v : Option String) :
    detailsOf (if c then { p with expandedUrl := v } else p) = detailsOf p := by
  split <;> rfl

theorem rescrape_final_gate (p1 q : Profile) (old rs r : String) (ntq : Option String)
    (hok : (Except.ok (finishRescrape p1 old ntq rs) : Except String (Profile × String)) =
      .ok (q, r))
    (hneq : (detailsOf q).fullText ≠ (detailsOf p1).fullText) :
    (pySplit old).length < (pySplit ((detailsOf q).fullText.getD "")).length := by
  have h1 : finishRescrape p1 old ntq rs = (q, r) := by
    simpa using hok
  have hq : (finishRescrape p1 old ntq rs).1 = q := by rw [h1]
  obtain ⟨nt, hnt, hft, hlt⟩ := finishRescrape_gate p1 old ntq rs (by rw [hq]; exact hneq)
  rw [hq] at hft
  rw [hft]
  simpa using hlt

/-- When the plain rescrape pass changes the stored text, the new text won
the whitespace-split comparison against the old one. -/
theorem rescrape_overwrite_gate (eg : String → Option String)
    (xg : String → Option (Nat × String)) (p q : Profile) (r : String)
    (hok : rescrape_profile eg xg p = .ok (q, r))
    (hneq : (detailsOf q).fullText ≠ (detailsOf p).fullText) :
    (pySplit (pyStrip ((detailsOf p).fullText.getD ""))).length <
      (pySplit ((detailsOf q).fullText.getD "")).length := by
  unfold rescrape_profile at hok
  dsimp only at hok
  split at hok
  case isTrue =>
    simp only [Except.ok.injEq, Prod.mk.injEq] at hok
    exact absurd (by rw [hok.1]) hneq
  case isFalse =>
    split at hok
    case h_1 => exact absurd hok (by simp)
    case h_2 platform0 heq =>
      split at hok
      case h_1 => exact absurd hok (by simp)
      case h_2 platform heq2 =>
        split at hok
        · split at hok
          case h_1 => exact absurd hok (by simp)
          case h_2 mt hmt =>
            split at hok
            · exact rescrape_final_gate _ _ _ _ _ _ hok (by rw [detailsOf_expandIf p]; exact hneq)
            · exact rescrape_final_gate _ _ _ _ _ _ hok (by rw [detailsOf_expandIf p]; exact hneq)
        · exact rescrape_final_gate _ _ _ _ _ _ hok (by rw [detailsOf_expandIf p]; exact hneq)

/-- C2 (amended): the quality gate holds for the three gated operations,
each per its own tokenizer: the id-keyed merge (for any min_gain of at
least one), the JS rescrape pass, and the plain rescrape pass replace a
stored `fullText` only with text of strictly higher word count.  The
JS-longform merge and the longform extraction pass enforce no such
comparison and overwrite unconditionally (see the counterexample). -/
theorem gated_passes_strictly_improve :
    (∀ (g : Int) (b u : Profile), 1 ≤ g →
      (detailsOf (mergeUpdate g b u)).fullText ≠ (detailsOf b).fullText →
      word_count (get_fulltext b) < word_count (get_fulltext u)) ∧
    (∀ (t : String) (p : Profile),
      (detailsOf (jsRescrapeStep t p)).fullText ≠ (detailsOf p).fullText →
      word_count_js (pyStrip ((detailsOf p).fullText.getD "")) < word_count_js t) ∧
    (∀ (eg : String → Option String) (xg : String → Option (Nat × String)) (p q : Profile)
      (r : String), rescrape_profile eg xg p = .ok (q, r) →
      (detailsOf q).fullText ≠ (detailsOf p).fullText →
      (pySplit (pyStrip ((detailsOf p).fullText.getD ""))).length <
        (pySplit ((detailsOf q).fullText.getD "")).length) := by
  refine ⟨?_, ?_, ?_⟩
  · intro g b u hg hneq
    by_cases hacc : (word_count (get_fulltext b) : Int) + g ≤ (word_count (get_fulltext u) : Int)
        ∧ 0 < word_count (get_fulltext u)
    · omega
    · exact absurd (show (detailsOf (mergeUpdate g b u)).fullText = (detailsOf b).fullText by
        unfold mergeUpdate; rw [if_neg hacc]) hneq
  · intro t p hneq
    unfold jsRescrapeStep at hneq
    dsimp only at hneq
    split at hneq
    · exact absurd rfl hneq
    · split at hneq
      · exact absurd rfl hneq
      · split at hneq
        case isTrue h => exact h.1
        case isFalse => exact absurd rfl hneq
  · exact fun eg xg p q r hok hneq => rescrape_overwrite_gate eg xg p q r hok hneq

theorem gated_passes_strictly_improve_witness :
    word_count_js (pyStrip ((detailsOf jsRescrapeEx).fullText.getD "")) <
      word_count_js "one two three four five six seven eight nine ten" := by
  exact gated_passes_strictly_improve.2.1 "one two three four five six seven eight nine ten"
    jsRescrapeEx (by decide)

/-- C8 counterexample: a record whose docAccessible is true from an
earlier successful pass comes out of a failing pass (network error on the
GET) with docAccessible false: the flag is not monotone. -/
theorem docAccessible_monotonicity_counterexample :
    accessibleRowEx.docAccessible = some true ∧
    (processRow fetchFailEx "2024-01-01T00:00:00Z" accessibleRowEx).1.docAccessible =
      some false := by
  decide

/-- C8 (amended): `docAccessible` records exactly whether the current pass
succeeded: each iteration of the fetch loop resets it to false and sets it
to true only when this pass's URL check, GET, status check, raw write and
extraction all succeed, regardless of its previous value. -/
theorem docAccessible_reflects_current_pass (o : FetchOutcome) (now : String) (row : Profile) :
    (processRow o now row).1.docAccessible = some (rowFetchSucceeds o row) := by
  rcases hu : row.profileUrl with _ | url
  · by_cases hpd : row.profileDetails = none <;> simp [processRow, rowFetchSucceeds, hu, hpd]
  · rcases hf : o.fetch with _ | ⟨status, body⟩
    · by_cases hpd : row.profileDetails = none <;> by_cases hemp : url = "" <;>
        simp [processRow, rowFetchSucceeds, hu, hpd, hf, hemp]
    · rcases he : o.extractRes body with e | ft
      · by_cases hpd : row.profileDetails = none <;> by_cases hemp : url = "" <;>
          by_cases hst : 400 ≤ status <;> by_cases hw : o.writeOk = false <;>
          simp [processRow, rowFetchSucceeds, hu, hpd, hf, hemp, hst, hw, he]
      · by_cases hpd : row.profileDetails = none <;> by_cases hemp : url = "" <;>
          by_cases hst : 400 ≤ status <;> by_cases hw : o.writeOk = false <;>
          by_cases hft : ft = "" <;>
          simp [processRow, rowFetchSucceeds, hu, hpd, hf, hemp, hst, hw, he, hft]

/-- A branch of an if-then-else whose branches both belong to a list
belongs to the list. -/
theorem mem_ite_of {α : Type} {L : List α} (c : Prop) [Decidable c] {a b : α}
    (ha : a ∈ L) (hb : b ∈ L) : (if c then a else b) ∈ L := by
  split <;> assumption

/-- Every outcome of the classifier rule chain is a known tag. -/
theorem classifyTag_mem (n p : String) : classifyTag n p ∈ knownPlatformTags := by
  unfold classifyTag
  repeat' first
    | apply mem_ite_of
    | decide

/-- The only ValueError of the urlsplit embedding is the invalid-bracket
one. -/
theorem pyUrlsplitL_error_msg (l : List Char) (e : String) (h : pyUrlsplitL l = .error e) :
    e = "Invalid IPv6 URL" := by
  unfold pyUrlsplitL at h
  dsimp only at h
  repeat' split at h
  all_goals
    first
      | exact (Except.error.inj h).symm
      | exact Except.noConfusion h

theorem pyUrlparseL_error_msg (l : List Char) (e : String) (h : pyUrlparseL l = .error e) :
    e = "Invalid IPv6 URL" := by
  unfold pyUrlparseL at h
  split at h
  case h_1 e2 heq =>
    injection h with h
    exact h ▸ pyUrlsplitL_error_msg l e2 heq
  case h_2 r heq =>
    split at h <;> exact Except.noConfusion h

/-- C4 (amended): the classifier is total up to the ValueError that
urlparse raises on a mismatched bracket in the authority: every input
yields either one of the known tags or that error; an absent or empty url
yields the tag "unknown" (the spec names it `missing_url`), and a host
matching no rule yields "custom_site". -/
theorem classifier_totality (url : Option String) :
    ((∃ t, classify_platform url = .ok t ∧ t ∈ knownPlatformTags) ∨
      classify_platform url = .error "Invalid IPv6 URL") ∧
    classify_platform none = .ok "unknown" ∧
    classify_platform (some "") = .ok "unknown" ∧
    classify_platform (some "http://unknown-host.example/x") = .ok "custom_site" := by
  refine ⟨?_, by decide, by decide, by decide⟩
  cases url with
  | none => exact Or.inl ⟨"unknown", rfl, by decide⟩
  | some u =>
    by_cases hemp : u = ""
    · subst hemp
      exact Or.inl ⟨"unknown", rfl, by decide⟩
    · unfold classify_platform
      dsimp only
      rw [if_neg hemp]
      cases hp : pyUrlparseL u.data with
      | error e =>
        right
        rw [pyUrlparseL_error_msg u.data e hp]
      | ok r => exact Or.inl ⟨_, rfl, classifyTag_mem _ _⟩

/-- C4 counterexample: an empty url is tagged "unknown", not the
"missing_url" the claim states, and a url with a mismatched bracket in its
authority raises a ValueError instead of returning a tag. -/
theorem classifier_totality_counterexample :
    classify_platform (some "") = .ok "unknown" ∧
    (Except.ok "unknown" : Except String String) ≠ .ok "missing_url" ∧
    classify_platform (some "http://[oops/x") = .error "Invalid IPv6 URL" := by
  decide

/-- C7 (amended): for a profile whose url classifies as a shortener, whose
stored text contains no intentional phrase and whose redirect expansion
resolves to a Notion URL, the rescrape pass stores the terminal URL in
`expandedUrl` and re-runs the classifier on it (selecting no Google-Docs
extraction), but it never writes the `docPlatform` field: the record keeps
its previous platform tag. -/
theorem shortener_expansion_spec (eg : String → Option String)
    (xg : String → Option (Nat × String)) (p : Profile) (u v : String)
    (hurl : p.profileUrl = some u)
    (hph : hasIntentionalPhrase (pyStrip ((detailsOf p).fullText.getD "")) = false)
    (hshort : classify_platform (some u) = .ok "shortener")
    (hexp : expand_url eg u = v)
    (hnotion : classify_platform (some v) = .ok "notion") :
    rescrape_profile eg xg p = .ok ({ p with expandedUrl := some v }, "no_change") ∧
    ({ p with expandedUrl := some v } : Profile).docPlatform = p.docPlatform := by
  refine ⟨?_, rfl⟩
  unfold rescrape_profile
  dsimp only
  rw [hph, if_neg (by simp), hurl, hshort]
  dsimp only
  rw [if_pos rfl, if_pos rfl, if_pos rfl]
  dsimp only [Option.getD]
  rw [hexp, hnotion]
  dsimp only
  rw [if_neg (by decide)]
  rfl

theorem shortener_expansion_spec_witness :
    rescrape_profile expandNetEx (fun _ => none) shortProfileEx =
      .ok ({ shortProfileEx with expandedUrl := some "https://notion.so/xyz" }, "no_change") := by
  exact (shortener_expansion_spec expandNetEx (fun _ => none) shortProfileEx
    "https://bit.ly/abc" "https://notion.so/xyz" rfl (by decide) (by decide) (by decide)
    (by decide)).1

/-- C7 counterexample: after the pass the record carries the expanded
Notion URL, yet its docPlatform still reads "shortener", not the "notion"
the claim states, because rescrape_profile never assigns docPlatform. -/
theorem shortener_docPlatform_counterexample :
    (∃ q, rescrape_profile expandNetEx (fun _ => none) shortProfileEx = .ok (q, "no_change") ∧
      q.expandedUrl = some "https://notion.so/xyz" ∧ q.docPlatform = some "shortener") ∧
    (some "shortener" : Option String) ≠ some "notion" := by
  refine ⟨⟨{ shortProfileEx with expandedUrl := some "https://notion.so/xyz" },
    by decide, rfl, rfl⟩, by decide⟩

/-- The source-scan loop finds the unique matching record: it goes to the
match slot, every other record stays, in order. -/
theorem extractById_spec (pid : String) (source : List Profile)
    (h : (source.filter (fun p => p.id = some pid)).length = 1) :
    ∃ m remaining, extractById pid source = (some m, remaining) ∧ m ∈ source ∧
      m.id = some pid ∧ remaining.length + 1 = source.length ∧
      ∀ r ∈ remaining, r.id ≠ some pid := by
  induction source with
  | nil => simp at h
  | cons p ps ih =>
    by_cases hp : p.id = some pid
    · have hps : (ps.filter (fun p => p.id = some pid)).length = 0 := by
        rw [List.filter_cons_of_pos (by simpa using hp)] at h
        simpa using h
      refine ⟨p, ps, ?_, by simp, hp, by simp, ?_⟩
      · unfold extractById
        rw [if_pos hp]
      · intro r hr hrid
        have hmem : r ∈ ps.filter (fun p => p.id = some pid) := by
          simp [List.mem_filter, hr, hrid]
        rw [List.length_eq_zero] at hps
        simp [hps] at hmem
    · obtain ⟨m, rem, hext, hmem, hid, hlen, hall⟩ := ih (by
        rwa [List.filter_cons_of_neg (by simpa using hp)] at h)
      refine ⟨m, p :: rem, ?_, by simp [hmem], hid, by simpa using hlen, ?_⟩
      · unfold extractById
        rw [if_neg hp, hext]
      · intro r hr
        rcases List.mem_cons.mp hr with h1 | h1
        · exact h1 ▸ hp
        · exact hall r h1

/-- C9 (amended): with the id and reason as the script normalizes them
(stripped of surrounding whitespace), moving the unique record with the
given id removes it from the source (the length drops by one and the id
is absent), and unless the bucket already holds that id, exactly one copy
stamped reviewStatus "closed", reviewReason the stripped reason and
reviewTimestamp now is appended to the bucket; on an id collision the
record is still removed from the source and the bucket is unchanged. -/
theorem bucket_triage_move (idArg reason now : String) (source bucket : List Profile)
    (h : (source.filter (fun p => p.id = some (pyStrip idArg))).length = 1) :
    ∃ m remaining bucket2,
      moveProfileToBucket idArg reason now source bucket = some (remaining, bucket2) ∧
      remaining.length + 1 = source.length ∧
      (∀ r ∈ remaining, r.id ≠ some (pyStrip idArg)) ∧
      m ∈ source ∧ m.id = some (pyStrip idArg) ∧
      (if bucket.any (fun p => p.id = some (pyStrip idArg)) then bucket2 = bucket
       else bucket2 = bucket ++ [stampClosed m (pyStrip reason) now]) := by
  obtain ⟨m, rem, hext, hmem, hid, hlen, hall⟩ := extractById_spec (pyStrip idArg) source h
  by_cases hb : bucket.any (fun p => p.id = some (pyStrip idArg)) = true
  · refine ⟨m, rem, bucket, ?_, hlen, hall, hmem, hid, ?_⟩
    · unfold moveProfileToBucket
      dsimp only
      rw [hext]
      dsimp only
      rw [if_pos hb]
    · rw [if_pos hb]
  · refine ⟨m, rem, bucket ++ [stampClosed m (pyStrip reason) now], ?_, hlen, hall, hmem,
      hid, ?_⟩
    · unfold moveProfileToBucket
      dsimp only
      rw [hext]
      dsimp only
      rw [if_neg hb]
    · rw [if_neg hb]

theorem bucket_triage_move_witness :
    ∃ m remaining bucket2,
      moveProfileToBucket "usr_0000000003" "account deleted" "2024-01-01T00:00:00Z"
        [triageRowEx] [] = some (remaining, bucket2) ∧
      remaining.length + 1 = [triageRowEx].length ∧
      (∀ r ∈ remaining, r.id ≠ some (pyStrip "usr_0000000003")) ∧
      m ∈ [triageRowEx] ∧ m.id = some (pyStrip "usr_0000000003") ∧
      (if ([] : List Profile).any (fun p => p.id = some (pyStrip "usr_0000000003"))
        then bucket2 = ([] : List Profile)
        else bucket2 =
          [] ++ [stampClosed m (pyStrip "account deleted") "2024-01-01T00:00:00Z"]) := by
  exact bucket_triage_move "usr_0000000003" "account deleted" "2024-01-01T00:00:00Z"
    [triageRowEx] [] (by decide)

/-- C9 counterexample: with the non-empty reason padded by whitespace the
stored reviewReason is the stripped text, which differs from the given
reason, so the claim as stated fails. -/
theorem bucket_triage_reason_counterexample :
    moveProfileToBucket "usr_0000000003" " account deleted " "2024-01-01T00:00:00Z"
      [triageRowEx] [] =
      some ([], [stampClosed triageRowEx "account deleted" "2024-01-01T00:00:00Z"]) ∧
    (stampClosed triageRowEx "account deleted" "2024-01-01T00:00:00Z").reviewReason =
      some "account deleted" ∧
    (some "account deleted" : Option String) ≠ some " account deleted " := by
  decide

/-! ## Character and list lemmas for the canonicalization proof -/

theorem char_toNat_inj {c d : Char} (h : c.toNat = d.toNat) : c = d :=
  Char.eq_of_val_eq (UInt32.toNat.inj h)

theorem char_eq_iff_toNat (c d : Char) : c = d ↔ c.toNat = d.toNat :=
  ⟨fun h => h ▸ rfl, char_toNat_inj⟩

theorem isAlpha_iff (c : Char) :
    c.isAlpha = true ↔ (65 ≤ c.toNat ∧ c.toNat ≤ 90) ∨ (97 ≤ c.toNat ∧ c.toNat ≤ 122) := by
  simp only [Char.isAlpha, Char.isUpper, Char.isLower, Bool.or_eq_true, Bool.and_eq_true,
    decide_eq_true_eq]
  exact Iff.rfl

theorem isDigit_iff (c : Char) :
    c.isDigit = true ↔ 48 ≤ c.toNat ∧ c.toNat ≤ 57 := by
  simp only [Char.isDigit, Bool.and_eq_true, decide_eq_true_eq]
  exact Iff.rfl

theorem pyLower_toNat (c : Char) :
    (pyLower c).toNat = if 65 ≤ c.toNat ∧ c.toNat ≤ 90 then c.toNat + 32 else c.toNat := by
  unfold pyLower
  split
  case isTrue h =>
    rw [Char.ofNat, dif_pos (Or.inl (by omega))]
    rfl
  case isFalse h => rfl

theorem pyLower_pyLower (c : Char) : pyLower (pyLower c) = pyLower c := by
  apply char_toNat_inj
  simp only [pyLower_toNat]
  split_ifs <;> omega

theorem pyLower_eq_iff (c d : Char)
    (hd : d.toNat < 65 ∨ (90 < d.toNat ∧ d.toNat < 97) ∨ 122 < d.toNat) :
    pyLower c = d ↔ c = d := by
  constructor
  · intro h
    by_cases hc : 65 ≤ c.toNat ∧ c.toNat ≤ 90
    · exfalso
      have h2 := congrArg Char.toNat h
      rw [pyLower_toNat, if_pos hc] at h2
      omega
    · unfold pyLower at h
      rwa [if_neg hc] at h
  · intro h
    subst h
    unfold pyLower
    rw [if_neg (by omega)]

theorem isSchemeChar_iff (c : Char) :
    isSchemeChar c = true ↔ (65 ≤ c.toNat ∧ c.toNat ≤ 90) ∨ (97 ≤ c.toNat ∧ c.toNat ≤ 122) ∨
      (48 ≤ c.toNat ∧ c.toNat ≤ 57) ∨ c.toNat = 43 ∨ c.toNat = 45 ∨ c.toNat = 46 := by
  unfold isSchemeChar
  simp only [Bool.or_eq_true, isAlpha_iff, isDigit_iff, decide_eq_true_eq, char_eq_iff_toNat]
  have h1 : ('+' : Char).toNat = 43 := by decide
  have h2 : ('-' : Char).toNat = 45 := by decide
  have h3 : ('.' : Char).toNat = 46 := by decide
  rw [h1, h2, h3]
  omega

theorem isNetlocDelim_iff (c : Char) :
    isNetlocDelim c = true ↔ c.toNat = 47 ∨ c.toNat = 63 ∨ c.toNat = 35 := by
  unfold isNetlocDelim
  simp only [Bool.or_eq_true, decide_eq_true_eq, char_eq_iff_toNat]
  have h1 : ('/' : Char).toNat = 47 := by decide
  have h2 : ('?' : Char).toNat = 63 := by decide
  have h3 : ('#' : Char).toNat = 35 := by decide
  rw [h1, h2, h3]
  tauto

theorem isUnsafeUrlChar_iff (c : Char) :
    isUnsafeUrlChar c = true ↔ c.toNat = 9 ∨ c.toNat = 13 ∨ c.toNat = 10 := by
  unfold isUnsafeUrlChar
  simp only [Bool.or_eq_true, decide_eq_true_eq, char_eq_iff_toNat]
  have h1 : ('\t' : Char).toNat = 9 := by decide
  have h2 : ('\r' : Char).toNat = 13 := by decide
  have h3 : ('\n' : Char).toNat = 10 := by decide
  rw [h1, h2, h3]
  tauto

theorem pyLower_isSchemeChar (c : Char) (h : isSchemeChar c = true) :
    isSchemeChar (pyLower c) = true := by
  rw [isSchemeChar_iff] at h ⊢
  rw [pyLower_toNat]
  split_ifs <;> omega

theorem pyLower_isAlpha (c : Char) (h : c.isAlpha = true) : (pyLower c).isAlpha = true := by
  rw [isAlpha_iff] at h ⊢
  rw [pyLower_toNat]
  split_ifs <;> omega

theorem pyLower_netlocDelim_false (c : Char) (h : isNetlocDelim c = false) :
    isNetlocDelim (pyLower c) = false := by
  rw [← Bool.not_eq_true] at h ⊢
  rw [isNetlocDelim_iff] at h ⊢
  rw [pyLower_toNat]
  split_ifs <;> omega

theorem pyLower_unsafe_false (c : Char) (h : isUnsafeUrlChar c = false) :
    isUnsafeUrlChar (pyLower c) = false := by
  rw [← Bool.not_eq_true] at h ⊢
  rw [isUnsafeUrlChar_iff] at h ⊢
  rw [pyLower_toNat]
  split_ifs <;> omega

theorem schemeChar_unsafe_false (c : Char) (h : isSchemeChar c = true) :
    isUnsafeUrlChar c = false := by
  rw [isSchemeChar_iff] at h
  rw [← Bool.not_eq_true, isUnsafeUrlChar_iff]
  omega

theorem schemeChar_ne_colon (c : Char) (h : isSchemeChar c = true) : c ≠ ':' := by
  rw [isSchemeChar_iff] at h
  rw [Ne, char_eq_iff_toNat]
  have h1 : (':' : Char).toNat = 58 := by decide
  omega

theorem alpha_not_c0 (c : Char) (h : c.isAlpha = true) : isC0OrSpace c = false := by
  rw [isAlpha_iff] at h
  rw [← Bool.not_eq_true]
  unfold isC0OrSpace
  simp only [decide_eq_true_eq]
  omega

theorem all_append_takeWhile (p : Char → Bool) (xs ys : List Char)
    (h : ∀ x ∈ xs, p x = true) :
    (xs ++ ys).takeWhile p = xs ++ ys.takeWhile p := by
  induction xs with
  | nil => rfl
  | cons x xs ih =>
    rw [List.cons_append, List.takeWhile_cons, h x (List.mem_cons_self x xs),
      List.cons_append, ih (fun y hy => h y (List.mem_cons_of_mem x hy))]
    simp

theorem all_append_dropWhile (p : Char → Bool) (xs ys : List Char)
    (h : ∀ x ∈ xs, p x = true) :
    (xs ++ ys).dropWhile p = ys.dropWhile p := by
  induction xs with
  | nil => rfl
  | cons x xs ih =>
    rw [List.cons_append, List.dropWhile_cons, h x (List.mem_cons_self x xs),
      ih (fun y hy => h y (List.mem_cons_of_mem x hy))]
    simp

theorem takeWhile_eq_self_of_all (p : Char → Bool) (l : List Char)
    (h : ∀ x ∈ l, p x = true) : l.takeWhile p = l := by
  have h2 := all_append_takeWhile p l [] h
  simpa using h2

theorem dropWhile_eq_nil_of_all (p : Char → Bool) (l : List Char)
    (h : ∀ x ∈ l, p x = true) : l.dropWhile p = [] := by
  have h2 := all_append_dropWhile p l [] h
  simpa using h2

theorem takeWhile_append_sentinel (p : Char → Bool) (xs : List Char) (y : Char)
    (ys : List Char) (hxs : ∀ x ∈ xs, p x = true) (hy : p y = false) :
    (xs ++ y :: ys).takeWhile p = xs := by
  rw [all_append_takeWhile p xs _ hxs, List.takeWhile_cons, hy]
  simp

theorem dropWhile_append_sentinel (p : Char → Bool) (xs : List Char) (y : Char)
    (ys : List Char) (hxs : ∀ x ∈ xs, p x = true) (hy : p y = false) :
    (xs ++ y :: ys).dropWhile p = y :: ys := by
  rw [all_append_dropWhile p xs _ hxs, List.dropWhile_cons, hy]
  simp

theorem mem_of_mem_takeWhile (p : Char → Bool) (l : List Char) (x : Char)
    (h : x ∈ l.takeWhile p) : x ∈ l :=
  (List.takeWhile_sublist p).subset h

theorem pred_of_mem_takeWhile (p : Char → Bool) (l : List Char) (x : Char)
    (h : x ∈ l.takeWhile p) : p x = true := by
  induction l with
  | nil => cases h
  | cons a l ih =>
    rw [List.takeWhile_cons] at h
    by_cases ha : p a = true
    · rw [ha] at h
      simp only [if_true] at h
      rcases List.mem_cons.mp h with h1 | h1
      · exact h1 ▸ ha
      · exact ih h1
    · rw [Bool.not_eq_true] at ha
      rw [ha] at h
      simp at h

theorem mem_of_mem_dropWhile (p : Char → Bool) (l : List Char) (x : Char)
    (h : x ∈ l.dropWhile p) : x ∈ l :=
  (List.dropWhile_sublist p).subset h

theorem dropWhile_head_false (p : Char → Bool) (l : List Char) :
    l.dropWhile p = [] ∨ ∃ x xs, l.dropWhile p = x :: xs ∧ p x = false := by
  induction l with
  | nil => exact Or.inl rfl
  | cons a l ih =>
    rw [List.dropWhile_cons]
    by_cases ha : p a = true
    · rw [ha]
      simpa using ih
    · rw [Bool.not_eq_true] at ha
      rw [ha]
      exact Or.inr ⟨a, l, by simp, ha⟩

theorem dropWhile_idem (p : Char → Bool) (l : List Char) :
    (l.dropWhile p).dropWhile p = l.dropWhile p := by
  rcases dropWhile_head_false p l with h | ⟨x, xs, h, hx⟩ <;> rw [h]
  · rfl
  · rw [List.dropWhile_cons, hx]
    simp

theorem rstripSlash_idem (l : List Char) : rstripSlashL (rstripSlashL l) = rstripSlashL l := by
  unfold rstripSlashL dropRightWhile
  rw [List.reverse_reverse, dropWhile_idem]

theorem mem_rstripSlash (l : List Char) (x : Char) (h : x ∈ rstripSlashL l) : x ∈ l := by
  unfold rstripSlashL dropRightWhile at h
  rw [List.mem_reverse] at h
  rw [← List.mem_reverse]
  exact mem_of_mem_dropWhile _ _ _ h

theorem rstripSlash_cons_slash (P : List Char) (hne : P ≠ []) (hP : rstripSlashL P = P) :
    rstripSlashL ('/' :: P) = '/' :: P := by
  unfold rstripSlashL dropRightWhile at hP ⊢
  have hdw : P.reverse.dropWhile (fun c => c = '/') = P.reverse := by
    have h2 := congrArg List.reverse hP
    rwa [List.reverse_reverse] at h2
  rcases dropWhile_head_false (fun c => (c = '/' : Bool)) P.reverse with h | ⟨x, xs, h, hx⟩
  · rw [hdw] at h
    exact absurd (by simpa using congrArg List.reverse h) hne
  · rw [hdw] at h
    have h3 : ((x :: (xs ++ ['/'])).dropWhile fun c => decide (c = '/')) =
        x :: (xs ++ ['/']) := by
      rw [List.dropWhile_cons, hx]
      simp
    rw [List.reverse_cons, h, List.cons_append, h3, ← List.cons_append, ← h]
    simp

theorem splitOnFirst_of_forall (sep : Char) (l : List Char) (h : ∀ c ∈ l, c ≠ sep) :
    splitOnFirst sep l = (l, []) := by
  unfold splitOnFirst
  rw [takeWhile_eq_self_of_all _ _ (fun x hx => by simpa using h x hx),
    dropWhile_eq_nil_of_all _ _ (fun x hx => by simpa using h x hx)]
  rfl

/-! ## Canonicalization idempotence (C5) -/

theorem unsplit_shape (S N P : List Char) (hS0 : S ≠ []) :
    pyUrlunsplitL S N P [] [] =
      if N ≠ [] ∨ P.take 2 = ['/', '/'] then
        S ++ ':' :: '/' :: '/' :: (N ++ (if P ≠ [] ∧ P.take 1 ≠ ['/'] then '/' :: P else P))
      else S ++ ':' :: P := by
  unfold pyUrlunsplitL
  dsimp only
  rw [if_neg (fun hc => hc rfl), if_neg (fun hc => hc rfl), if_pos hS0]
  split <;> rfl

theorem mem_of_drop_dropWhile (p : Char → Bool) (n : Nat) (l : List Char) (c : Char)
    (hc : c ∈ (l.dropWhile p).drop n) : c ∈ l :=
  mem_of_mem_dropWhile _ _ _ (List.drop_subset _ _ hc)

theorem scheme_props_of_ok (url : List Char) (hOk : schemeParseOk url) :
    (url.takeWhile (fun c => c ≠ ':')).map pyLower ≠ [] ∧
    headIsAlpha ((url.takeWhile (fun c => c ≠ ':')).map pyLower) = true ∧
    (∀ c ∈ (url.takeWhile (fun c => c ≠ ':')).map pyLower, isSchemeChar c = true) ∧
    ((url.takeWhile (fun c => c ≠ ':')).map pyLower).map pyLower =
      (url.takeWhile (fun c => c ≠ ':')).map pyLower := by
  obtain ⟨_, hne, hha, hall⟩ := hOk
  refine ⟨by simpa using hne, ?_, ?_, ?_⟩
  · cases hpre : url.takeWhile (fun c => c ≠ ':') with
    | nil => exact absurd hpre hne
    | cons c cs =>
      rw [hpre] at hha
      unfold headIsAlpha at hha ⊢
      rw [List.map_cons]
      exact pyLower_isAlpha c hha
  · intro c hc
    obtain ⟨d, hd, hdc⟩ := List.mem_map.mp hc
    have hds := (List.all_eq_true.mp hall) d hd
    exact hdc ▸ pyLower_isSchemeChar d (by simpa using hds)
  · rw [List.map_map]
    exact List.map_congr_left (fun a _ => pyLower_pyLower a)

theorem path_props (rest2 : List Char) (hrest : ∀ c ∈ rest2, isUnsafeUrlChar c = false) :
    ∀ c ∈ (splitOnFirst '?' (splitOnFirst '#' rest2).1).1,
      c ≠ '#' ∧ c ≠ '?' ∧ isUnsafeUrlChar c = false := by
  intro c hc
  unfold splitOnFirst at hc
  dsimp only at hc
  have h1 : c ∈ rest2.takeWhile (fun c => c ≠ '#') := mem_of_mem_takeWhile _ _ _ hc
  exact ⟨by simpa using pred_of_mem_takeWhile _ _ _ h1,
    by simpa using pred_of_mem_takeWhile _ _ _ hc,
    hrest c (mem_of_mem_takeWhile _ _ _ h1)⟩

theorem netloc_props (after : List Char) (hafter : ∀ c ∈ after, isUnsafeUrlChar c = false) :
    ∀ c ∈ after.takeWhile (fun c => !isNetlocDelim c),
      isNetlocDelim c = false ∧ isUnsafeUrlChar c = false := by
  intro c hc
  have h1 := pred_of_mem_takeWhile _ _ _ hc
  rw [Bool.not_eq_true'] at h1
  exact ⟨h1, hafter c (mem_of_mem_takeWhile _ _ _ hc)⟩

theorem pyUrlsplitL_shape (l : List Char) (r : USplit) (h : pyUrlsplitL l = .ok r) :
    (r.scheme = [] ∨ (r.scheme ≠ [] ∧ headIsAlpha r.scheme = true ∧
      (∀ c ∈ r.scheme, isSchemeChar c = true) ∧ r.scheme.map pyLower = r.scheme)) ∧
    (∀ c ∈ r.netloc, isNetlocDelim c = false ∧ isUnsafeUrlChar c = false) ∧
    (¬(('[' ∈ r.netloc ∧ ']' ∉ r.netloc) ∨ (']' ∈ r.netloc ∧ '[' ∉ r.netloc))) ∧
    (∀ c ∈ r.path, c ≠ '#' ∧ c ≠ '?' ∧ isUnsafeUrlChar c = false) := by
  unfold pyUrlsplitL at h
  dsimp only at h
  generalize hu : (List.dropWhile isC0OrSpace l).filter (fun c => !isUnsafeUrlChar c) = url at h
  have hurl : ∀ c ∈ url, isUnsafeUrlChar c = false := by
    intro c hc
    rw [← hu] at hc
    have h2 := (List.mem_filter.mp hc).2
    rwa [Bool.not_eq_true'] at h2
  by_cases hOk : schemeParseOk url
  · rw [if_pos hOk, if_pos hOk] at h
    have hrest : ∀ c ∈ (url.dropWhile (fun c => c ≠ ':')).drop 1, isUnsafeUrlChar c = false :=
      fun c hc => hurl c (mem_of_drop_dropWhile _ _ _ _ hc)
    split at h
    · split at h
      · exact Except.noConfusion h
      next hbr =>
        obtain rfl := (Except.ok.inj h).symm
        refine ⟨Or.inr (scheme_props_of_ok url hOk), ?_, by simpa using hbr, ?_⟩
        · exact netloc_props _ (fun c hc => hrest c (List.drop_subset _ _ hc))
        · exact path_props _ (fun c hc =>
            hrest c (List.drop_subset _ _ (mem_of_mem_dropWhile _ _ _ hc)))
    · obtain rfl := (Except.ok.inj h).symm
      refine ⟨Or.inr (scheme_props_of_ok url hOk), by simp, by simp, ?_⟩
      exact path_props _ hrest
  · rw [if_neg hOk, if_neg hOk] at h
    split at h
    · split at h
      · exact Except.noConfusion h
      next hbr =>
        obtain rfl := (Except.ok.inj h).symm
        refine ⟨Or.inl rfl, ?_, by simpa using hbr, ?_⟩
        · exact netloc_props _ (fun c hc => hurl c (List.drop_subset _ _ hc))
        · exact path_props _ (fun c hc =>
            hurl c (List.drop_subset _ _ (mem_of_mem_dropWhile _ _ _ hc)))
    · obtain rfl := (Except.ok.inj h).symm
      exact ⟨Or.inl rfl, by simp, by simp, path_props _ hurl⟩

theorem take_one_eq (P : List Char) (c : Char) (h : P.take 1 = [c]) : ∃ t, P = c :: t := by
  cases P with
  | nil => cases h
  | cons a t =>
    simp only [List.take_succ_cons, List.take_zero, List.cons.injEq, and_true] at h
    exact ⟨t, by rw [h]⟩

theorem take_two_eq (P : List Char) (c d : Char) (h : P.take 2 = [c, d]) :
    ∃ t, P = c :: d :: t := by
  cases P with
  | nil => cases h
  | cons a t =>
    cases t with
    | nil => simp at h
    | cons b t2 =>
      simp only [List.take_succ_cons, List.take_zero, List.cons.injEq, and_true] at h
      exact ⟨t2, by rw [h.1, h.2]⟩

theorem split_reassemble_A (S N U : List Char)
    (hS0 : S ≠ []) (hSh : headIsAlpha S = true)
    (hSc : ∀ c ∈ S, isSchemeChar c = true) (hSl : S.map pyLower = S)
    (hN1 : ∀ c ∈ N, isNetlocDelim c = false ∧ isUnsafeUrlChar c = false)
    (hNb : ¬(('[' ∈ N ∧ ']' ∉ N) ∨ (']' ∈ N ∧ '[' ∉ N)))
    (hU1 : ∀ c ∈ U, c ≠ '#' ∧ c ≠ '?' ∧ isUnsafeUrlChar c = false)
    (hUh : U = [] ∨ ∃ u2, U = '/' :: u2) :
    pyUrlsplitL (S ++ ':' :: '/' :: '/' :: (N ++ U)) = .ok ⟨S, N, U, [], []⟩ := by
  obtain ⟨c0, S', rfl⟩ : ∃ c0 S', S = c0 :: S' := by
    cases S with
    | nil => exact absurd rfl hS0
    | cons c0 S' => exact ⟨c0, S', rfl⟩
  have hc0 : c0.isAlpha = true := hSh
  unfold pyUrlsplitL
  dsimp only
  have h1 : List.dropWhile isC0OrSpace ((c0 :: S') ++ ':' :: '/' :: '/' :: (N ++ U)) =
      (c0 :: S') ++ ':' :: '/' :: '/' :: (N ++ U) := by
    rw [List.cons_append, List.dropWhile_cons, alpha_not_c0 c0 hc0]
    simp
  rw [h1]
  have h2 : ((c0 :: S') ++ ':' :: '/' :: '/' :: (N ++ U)).filter (fun c => !isUnsafeUrlChar c) =
      (c0 :: S') ++ ':' :: '/' :: '/' :: (N ++ U) := by
    rw [List.filter_eq_self]
    intro c hc
    rw [Bool.not_eq_true']
    simp only [List.mem_append, List.mem_cons] at hc
    rcases hc with (hc | hc) | hc | hc | hc | hc | hc
    · exact schemeChar_unsafe_false c (hSc c (by simp [hc]))
    · exact schemeChar_unsafe_false c (hSc c (by simp [hc]))
    · subst hc; decide
    · subst hc; decide
    · subst hc; decide
    · exact (hN1 c hc).2
    · exact (hU1 c hc).2.2
  rw [h2]
  have hScolon : ∀ c ∈ c0 :: S', (fun c => decide (c ≠ ':')) c = true := by
    intro c hc
    simpa using schemeChar_ne_colon c (hSc c hc)
  have hpre : ((c0 :: S') ++ ':' :: '/' :: '/' :: (N ++ U)).takeWhile
      (fun c => c ≠ ':') = c0 :: S' :=
    takeWhile_append_sentinel _ _ _ _ hScolon (by simp)
  have hOk : schemeParseOk ((c0 :: S') ++ ':' :: '/' :: '/' :: (N ++ U)) := by
    refine ⟨by simp, ?_, ?_, ?_⟩
    · rw [hpre]; simp
    · rw [hpre]; exact hSh
    · rw [hpre]
      exact List.all_eq_true.mpr (fun c hc => hSc c hc)
  rw [if_pos hOk, if_pos hOk, hpre, hSl]
  have hdrop : (((c0 :: S') ++ ':' :: '/' :: '/' :: (N ++ U)).dropWhile
      (fun c => c ≠ ':')).drop 1 = '/' :: '/' :: (N ++ U) := by
    rw [dropWhile_append_sentinel _ _ _ _ hScolon (by simp)]
    rfl
  rw [hdrop]
  dsimp only [List.take, List.drop]
  rw [if_pos rfl]
  have hNall : ∀ c ∈ N, (fun c => !isNetlocDelim c) c = true := by
    intro c hc
    simp [(hN1 c hc).1]
  have hnet : (N ++ U).takeWhile (fun c => !isNetlocDelim c) = N := by
    rcases hUh with h | ⟨u2, h⟩ <;> subst h
    · rw [List.append_nil]
      exact takeWhile_eq_self_of_all _ _ hNall
    · exact takeWhile_append_sentinel _ _ _ _ hNall (by decide)
  have hnet2 : (N ++ U).dropWhile (fun c => !isNetlocDelim c) = U := by
    rcases hUh with h | ⟨u2, h⟩ <;> subst h
    · rw [List.append_nil]
      exact dropWhile_eq_nil_of_all _ _ hNall
    · exact dropWhile_append_sentinel _ _ _ _ hNall (by decide)
  rw [hnet, hnet2, if_neg hNb]
  rw [splitOnFirst_of_forall '#' U (fun c hc => (hU1 c hc).1)]
  dsimp only
  rw [splitOnFirst_of_forall '?' U (fun c hc => (hU1 c hc).2.1)]

theorem split_reassemble_B (S P : List Char)
    (hS0 : S ≠ []) (hSh : headIsAlpha S = true)
    (hSc : ∀ c ∈ S, isSchemeChar c = true) (hSl : S.map pyLower = S)
    (hP1 : ∀ c ∈ P, c ≠ '#' ∧ c ≠ '?' ∧ isUnsafeUrlChar c = false)
    (hPbr : P.take 2 ≠ ['/', '/']) :
    pyUrlsplitL (S ++ ':' :: P) = .ok ⟨S, [], P, [], []⟩ := by
  obtain ⟨c0, S', rfl⟩ : ∃ c0 S', S = c0 :: S' := by
    cases S with
    | nil => exact absurd rfl hS0
    | cons c0 S' => exact ⟨c0, S', rfl⟩
  have hc0 : c0.isAlpha = true := hSh
  unfold pyUrlsplitL
  dsimp only
  have h1 : List.dropWhile isC0OrSpace ((c0 :: S') ++ ':' :: P) = (c0 :: S') ++ ':' :: P := by
    rw [List.cons_append, List.dropWhile_cons, alpha_not_c0 c0 hc0]
    simp
  rw [h1]
  have h2 : ((c0 :: S') ++ ':' :: P).filter (fun c => !isUnsafeUrlChar c) =
      (c0 :: S') ++ ':' :: P := by
    rw [List.filter_eq_self]
    intro c hc
    rw [Bool.not_eq_true']
    simp only [List.mem_append, List.mem_cons] at hc
    rcases hc with (hc | hc) | hc | hc
    · exact schemeChar_unsafe_false c (hSc c (by simp [hc]))
    · exact schemeChar_unsafe_false c (hSc c (by simp [hc]))
    · subst hc; decide
    · exact (hP1 c hc).2.2
  rw [h2]
  have hScolon : ∀ c ∈ c0 :: S', (fun c => decide (c ≠ ':')) c = true := by
    intro c hc
    simpa using schemeChar_ne_colon c (hSc c hc)
  have hpre : ((c0 :: S') ++ ':' :: P).takeWhile (fun c => c ≠ ':') = c0 :: S' :=
    takeWhile_append_sentinel _ _ _ _ hScolon (by simp)
  have hOk : schemeParseOk ((c0 :: S') ++ ':' :: P) := by
    refine ⟨by simp, ?_, ?_, ?_⟩
    · rw [hpre]; simp
    · rw [hpre]; exact hSh
    · rw [hpre]
      exact List.all_eq_true.mpr (fun c hc => hSc c hc)
  rw [if_pos hOk, if_pos hOk, hpre, hSl]
  have hdrop : (((c0 :: S') ++ ':' :: P).dropWhile (fun c => c ≠ ':')).drop 1 = P := by
    rw [dropWhile_append_sentinel _ _ _ _ hScolon (by simp)]
    rfl
  rw [hdrop, if_neg hPbr]
  rw [splitOnFirst_of_forall '#' P (fun c hc => (hP1 c hc).1)]
  dsimp only
  rw [splitOnFirst_of_forall '?' P (fun c hc => (hP1 c hc).2.1)]

theorem mem_map_pyLower_special (d : Char) (l : List Char)
    (hd : d.toNat < 65 ∨ (90 < d.toNat ∧ d.toNat < 97) ∨ 122 < d.toNat) :
    d ∈ l.map pyLower ↔ d ∈ l := by
  rw [List.mem_map]
  constructor
  · rintro ⟨c, hc, hcd⟩
    rwa [(pyLower_eq_iff c d hd).mp hcd] at hc
  · intro h
    exact ⟨d, h, (pyLower_eq_iff d d hd).mpr rfl⟩

theorem canonical_fixed (S N P : List Char)
    (hS0 : S ≠ []) (hSh : headIsAlpha S = true)
    (hSc : ∀ c ∈ S, isSchemeChar c = true) (hSl : S.map pyLower = S)
    (hN1 : ∀ c ∈ N, isNetlocDelim c = false ∧ isUnsafeUrlChar c = false)
    (hNl : N.map pyLower = N)
    (hNb : ¬(('[' ∈ N ∧ ']' ∉ N) ∨ (']' ∈ N ∧ '[' ∉ N)))
    (hP1 : ∀ c ∈ P, c ≠ '#' ∧ c ≠ '?' ∧ isUnsafeUrlChar c = false)
    (hPr : rstripSlashL P = P)
    (hstrip : pyStripL (pyUrlunsplitL S N P [] []) = pyUrlunsplitL S N P [] []) :
    canonical_url (String.mk (pyUrlunsplitL S N P [] [])) =
      .ok (String.mk (pyUrlunsplitL S N P [] [])) := by
  have hps : pyStrip (String.mk (pyUrlunsplitL S N P [] [])) =
      String.mk (pyUrlunsplitL S N P [] []) := by
    unfold pyStrip
    exact congrArg String.mk hstrip
  by_cases hbr : N ≠ [] ∨ P.take 2 = ['/', '/']
  · have hL : pyUrlunsplitL S N P [] [] =
        S ++ ':' :: '/' :: '/' ::
          (N ++ (if P ≠ [] ∧ P.take 1 ≠ ['/'] then '/' :: P else P)) := by
      rw [unsplit_shape S N P hS0, if_pos hbr]
    have hU1 : ∀ c ∈ (if P ≠ [] ∧ P.take 1 ≠ ['/'] then '/' :: P else P),
        c ≠ '#' ∧ c ≠ '?' ∧ isUnsafeUrlChar c = false := by
      split
      · intro c hc
        rcases List.mem_cons.mp hc with hc | hc
        · subst hc
          exact ⟨by decide, by decide, by decide⟩
        · exact hP1 c hc
      · exact hP1
    have hUh : (if P ≠ [] ∧ P.take 1 ≠ ['/'] then '/' :: P else P) = [] ∨
        ∃ u2, (if P ≠ [] ∧ P.take 1 ≠ ['/'] then '/' :: P else P) = '/' :: u2 := by
      split
      case isTrue h => exact Or.inr ⟨P, rfl⟩
      case isFalse h =>
        push_neg at h
        by_cases hP : P = []
        · exact Or.inl hP
        · obtain ⟨t, ht⟩ := take_one_eq P '/' (h hP)
          exact Or.inr ⟨t, ht⟩
    have hUr : rstripSlashL (if P ≠ [] ∧ P.take 1 ≠ ['/'] then '/' :: P else P) =
        (if P ≠ [] ∧ P.take 1 ≠ ['/'] then '/' :: P else P) := by
      split
      case isTrue h => exact rstripSlash_cons_slash P h.1 hPr
      case isFalse h => exact hPr
    have hbr2 : N ≠ [] ∨
        (if P ≠ [] ∧ P.take 1 ≠ ['/'] then '/' :: P else P).take 2 = ['/', '/'] := by
      rcases hbr with h | h
      · exact Or.inl h
      · right
        obtain ⟨t, ht⟩ := take_two_eq P '/' '/' h
        rw [if_neg (by rw [ht]; simp)]
        exact h
    have hUfix : ¬((if P ≠ [] ∧ P.take 1 ≠ ['/'] then '/' :: P else P) ≠ [] ∧
        (if P ≠ [] ∧ P.take 1 ≠ ['/'] then '/' :: P else P).take 1 ≠ ['/']) := by
      rcases hUh with h | ⟨u2, h⟩ <;> rw [h] <;> simp
    have hsplit := split_reassemble_A S N _ hS0 hSh hSc hSl hN1 hNb hU1 hUh
    unfold canonical_url
    dsimp only
    rw [hps]
    have hLne : pyUrlunsplitL S N P [] [] ≠ [] := by
      rw [hL]
      rcases S with _ | ⟨c, S2⟩
      · exact absurd rfl hS0
      · simp
    have hne : String.mk (pyUrlunsplitL S N P [] []) ≠ "" :=
      fun hc => hLne (congrArg String.data hc)
    rw [if_neg hne]
    have hdata : (String.mk (pyUrlunsplitL S N P [] [])).data = pyUrlunsplitL S N P [] [] := rfl
    rw [hdata, hL, hsplit]
    dsimp only
    rw [hSl, if_neg hS0, hNl, hUr]
    rw [unsplit_shape S N _ hS0, if_pos hbr2, if_neg hUfix]
  · push_neg at hbr
    obtain ⟨hN0, hP2⟩ := hbr
    subst hN0
    have hL : pyUrlunsplitL S [] P [] [] = S ++ ':' :: P := by
      rw [unsplit_shape S [] P hS0, if_neg (by simpa using hP2)]
    have hsplit := split_reassemble_B S P hS0 hSh hSc hSl hP1 hP2
    unfold canonical_url
    dsimp only
    rw [hps]
    have hLne : pyUrlunsplitL S [] P [] [] ≠ [] := by
      rw [hL]
      rcases S with _ | ⟨c, S2⟩
      · exact absurd rfl hS0
      · simp
    have hne : String.mk (pyUrlunsplitL S [] P [] []) ≠ "" :=
      fun hc => hLne (congrArg String.data hc)
    rw [if_neg hne]
    have hdata : (String.mk (pyUrlunsplitL S [] P [] [])).data = pyUrlunsplitL S [] P [] [] := rfl
    rw [hdata, hL, hsplit]
    dsimp only
    rw [hSl, if_neg hS0, hPr]
    rw [show (([] : List Char).map pyLower) = [] from rfl]
    rw [unsplit_shape S [] P hS0, if_neg (by simpa using hP2)]

/-- C5 (amended): canonicalization is idempotent on every input whose
canonical form carries no surrounding whitespace: whenever
`canonical_url u` succeeds with value `c` and `c` is its own strip,
`canonical_url c` returns `c` unchanged.  Unrestricted idempotence fails
because the trailing-slash strip can expose trailing whitespace in the
path, which the second pass then strips (see the counterexample). -/
theorem canonical_url_idempotent_on_stripped (u c : String)
    (h1 : canonical_url u = .ok c) (h2 : pyStrip c = c) :
    canonical_url c = .ok c := by
  unfold canonical_url at h1
  dsimp only at h1
  split at h1
  case isTrue hu =>
    obtain rfl := (Except.ok.inj h1).symm
    decide
  case isFalse hu =>
    split at h1
    case h_1 => exact Except.noConfusion h1
    case h_2 r heq =>
      obtain rfl := (Except.ok.inj h1).symm
      obtain ⟨hsch, hnet, hbrk, hpath⟩ := pyUrlsplitL_shape _ r heq
      have hN1 : ∀ c ∈ r.netloc.map pyLower,
          isNetlocDelim c = false ∧ isUnsafeUrlChar c = false := by
        intro c hc
        obtain ⟨d, hd, rfl⟩ := List.mem_map.mp hc
        exact ⟨pyLower_netlocDelim_false d (hnet d hd).1, pyLower_unsafe_false d (hnet d hd).2⟩
      have hNl : (r.netloc.map pyLower).map pyLower = r.netloc.map pyLower := by
        rw [List.map_map]
        exact List.map_congr_left (fun a _ => pyLower_pyLower a)
      have hb1 : ('[' ∈ r.netloc.map pyLower) ↔ '[' ∈ r.netloc :=
        mem_map_pyLower_special '[' _ (by decide)
      have hb2 : (']' ∈ r.netloc.map pyLower) ↔ ']' ∈ r.netloc :=
        mem_map_pyLower_special ']' _ (by decide)
      have hNb : ¬(('[' ∈ r.netloc.map pyLower ∧ ']' ∉ r.netloc.map pyLower) ∨
          (']' ∈ r.netloc.map pyLower ∧ '[' ∉ r.netloc.map pyLower)) := by
        simp only [hb1, hb2]
        exact hbrk
      have hP1 : ∀ c ∈ rstripSlashL r.path,
          c ≠ '#' ∧ c ≠ '?' ∧ isUnsafeUrlChar c = false :=
        fun c hc => hpath c (mem_rstripSlash _ _ hc)
      rcases hsch with h0 | ⟨hne, hha, hall, hlow⟩
      · have hS : (if List.map pyLower r.scheme = [] then "https".data
            else List.map pyLower r.scheme) = "https".data := by
          rw [h0]
          simp
        rw [hS] at h2 ⊢
        exact canonical_fixed "https".data (r.netloc.map pyLower) (rstripSlashL r.path)
          (by decide) (by decide) (by decide) (by decide) hN1 hNl hNb hP1
          (rstripSlash_idem _) (congrArg String.data h2)
      · rw [hlow, if_neg hne] at h2 ⊢
        exact canonical_fixed r.scheme (r.netloc.map pyLower) (rstripSlashL r.path)
          hne hha hall hlow hN1 hNl hNb hP1 (rstripSlash_idem _)
          (congrArg String.data h2)

theorem canonical_url_idempotent_on_stripped_witness :
    canonical_url "https://example.com/a" = .ok "https://example.com/a" := by
  exact canonical_url_idempotent_on_stripped "HTTPS://Example.com/a/?q=1#frag"
    "https://example.com/a" (by decide) (by decide)

/-- C5 counterexample: a space in the path just before the trailing slash
survives the first canonicalization as a trailing space, which the second
canonicalization strips, so the two outputs differ and
`canonical(canonical(u)) = canonical(u)` fails for this input. -/
theorem canonical_idempotence_counterexample :
    canonical_url "https://example.com/a /" = .ok "https://example.com/a " ∧
    canonical_url "https://example.com/a " = .ok "https://example.com/a" ∧
    ("https://example.com/a" : String) ≠ "https://example.com/a " := by
  decide


end DateMe
